import Mathlib

/-!
# Verification of the MorseCode translator (package `morsecode`, v1.0.0)

A shallow embedding of the pure core of `morsecode/functions.py` and
`morsecode/globals.py`: the text→Morse and Morse→text codecs, the audio
file name selection, and the state effects on the process-wide
`most_recent_audio_filepath` slot and the audio-status entry widget.

Strings are embedded as Lean `String` / `List Char`; the external
collaborators (the `unidecode` transliteration library, the filesystem,
the `pycw` renderer and the yes/no confirmation dialog) are modelled as
explicit parameters.
-/

/-- Python `str` whitespace for `\s` and `str.split()` / `str.strip()`
(ASCII fragment; all characters reaching these calls in the embedded
code paths are ASCII). -/
def isPyWs (c : Char) : Bool :=
  c = ' ' || c = '\t' || c = '\n' || c = '\x0d' || c = '\x0b' || c = '\x0c'

/-- The character class of `PATT_SANITIZE_MORSE_CODE_INPUT` (globals.py
lines 171-173): dot, dash, slash or space. -/
def legalMorseChar (c : Char) : Bool :=
  c = '.' || c = '-' || c = '/' || c = ' '

/-- The character class of `PATT_SANITIZE_PLAIN_TEXT_INPUT = [~`<>\\|*^%@#]+`
(globals.py lines 175-177): characters unsupported by the pycw renderer. -/
def isBlacklistChar (c : Char) : Bool :=
  c = '~' || c = '\x60' || c = '<' || c = '>' || c = '\\' || c = '|' ||
  c = '*' || c = '^' || c = '%' || c = '@' || c = '#'

/-- Python `str.upper()` on a single character (ASCII fragment: the
inputs it is applied to have been transliterated to ASCII first). -/
def pyUpperChar (c : Char) : Char :=
  if 'a' ≤ c && c ≤ 'z' then Char.ofNat (c.toNat - 32) else c

/-- Modelled from the spec: the external diacritic-folding collaborator
(`unidecode.unidecode`), absent from the repository. The spec (§6)
treats it as a pure function mapping Unicode to its closest ASCII form,
giving `"żółć" → "zolc"`; ASCII characters map to themselves. -/
def unidecChar (c : Char) : List Char :=
  if c.toNat < 128 then [c]
  else if c = 'ż' then ['z'] else if c = 'Ż' then ['Z']
  else if c = 'ó' then ['o'] else if c = 'Ó' then ['O']
  else if c = 'ł' then ['l'] else if c = 'Ł' then ['L']
  else if c = 'ć' then ['c'] else if c = 'Ć' then ['C']
  else [c]

/-- Transliteration of a whole string (character-wise). -/
def unidecL (l : List Char) : List Char := l.flatMap unidecChar

/-- Python `str.strip()`: drop leading and trailing whitespace. -/
def pyStripL (l : List Char) : List Char :=
  ((l.dropWhile isPyWs).reverse.dropWhile isPyWs).reverse

/-- Auxiliary state of `splitWs`: the (reversed) word being read. -/
def splitWsAux : List Char → List Char → List (List Char)
  | [], cur => if cur = [] then [] else [cur.reverse]
  | c :: rest, cur =>
    if isPyWs c then
      if cur = [] then splitWsAux rest []
      else cur.reverse :: splitWsAux rest []
    else splitWsAux rest (c :: cur)

/-- Python `str.split()` with no separator: split on whitespace runs,
discarding empty pieces. -/
def splitWs (l : List Char) : List (List Char) := splitWsAux l []

/-- Auxiliary state of `reduceSpaces`: whether we are inside a
whitespace run whose replacement space was already emitted. -/
def reduceSpacesAux : Bool → List Char → List Char
  | _, [] => []
  | inRun, c :: rest =>
    if isPyWs c then
      match rest with
      | [] => if inRun then [] else [c]
      | c2 :: _ =>
        if inRun then reduceSpacesAux true rest
        else if isPyWs c2 then ' ' :: reduceSpacesAux true rest
        else c :: reduceSpacesAux false rest
    else c :: reduceSpacesAux false rest

/-- Embedding of `re.sub(PATT_REDUCE_SPACES_MORSE_CODE_INPUT, " ", ·)` (functions.py
lines 307-310): replace every maximal run of two or more whitespace
characters (the pattern matches at least two whitespace characters,
greedily) by one space; a lone whitespace character is left as it is. -/
def reduceSpaces (l : List Char) : List Char := reduceSpacesAux false l

/-- Helper for `splitSlash`: prepend a character to the first piece. -/
def consFirst (c : Char) : List (List Char) → List (List Char)
  | [] => [[c]]
  | w :: ws => (c :: w) :: ws

/-- Python `str.split(sep=" / ")` (functions.py line 312): split on the
exact token `" / "`, left to right, non-overlapping, keeping empty
pieces. -/
def splitSlash : List Char → List (List Char)
  | [] => [[]]
  | ' ' :: '/' :: ' ' :: rest => [] :: splitSlash rest
  | c :: rest => consFirst c (splitSlash rest)

/-- Python `sep.join(parts)`. -/
def joinSep (sep : List Char) : List (List Char) → List Char
  | [] => []
  | [w] => w
  | w :: ws => w ++ sep ++ joinSep sep ws

/-- Table `MORSE_CODE_DICT` (globals.py lines 11-19), in insertion order. -/
def MORSE_CODE_DICT : List (Char × String) :=
  [('A', ".-"), ('B', "-..."), ('C', "-.-."), ('D', "-.."), ('E', "."),
   ('F', "..-."), ('G', "--."), ('H', "...."), ('I', ".."), ('J', ".---"),
   ('K', "-.-"), ('L', ".-.."), ('M', "--"), ('N', "-."), ('O', "---"),
   ('P', ".--."), ('Q', "--.-"), ('R', ".-."), ('S', "..."), ('T', "-"),
   ('U', "..-"), ('V', "...-"), ('W', ".--"), ('X', "-..-"), ('Y', "-.--"),
   ('Z', "--.."), ('0', "-----"), ('1', ".----"), ('2', "..---"),
   ('3', "...--"), ('4', "....-"), ('5', "....."), ('6', "-...."),
   ('7', "--..."), ('8', "---.."), ('9', "----."), ('.', ".-.-.-"),
   (',', "--..--"), ('\x27', ".----."), ('"', ".-..-."), ('_', "..--.-"),
   (':', "---..."), (';', "-.-.-."), ('?', "..--.."), ('!', "-.-.--"),
   ('-', "-....-"), ('+', ".-.-."), ('/', "-..-."), ('(', "-.--."),
   (')', "-.--.-"), ('=', "-...-"), ('@', ".--.-."), ('$', "...-..-"),
   ('&', ".-...")]

/-- Lookup `MORSE_CODE_DICT.get(c, "")`: the codeword of `c`, or `""` when `c`
is not a key (keys of a Python dict are unique, so first match). -/
def dictGet (c : Char) : List Char :=
  match MORSE_CODE_DICT.find? (fun p => p.1 = c) with
  | some p => p.2.data
  | none => []

/-- Lookup `switched_morse_code_dict.get(code, "")` where
`switched_morse_code_dict = {v: k for k, v in MORSE_CODE_DICT.items()}`
(functions.py line 315): on duplicate codewords the later key would win,
hence the lookup scans the reversed table. -/
def switchedGet (code : List Char) : List Char :=
  match MORSE_CODE_DICT.reverse.find? (fun p => p.2.data = code) with
  | some p => [p.1]
  | none => []

/-- Normalization `unidecode.unidecode(t).upper().strip()` (functions.py line 223). -/
def normalizeL (l : List Char) : List Char :=
  pyStripL ((unidecL l).map pyUpperChar)

/-- Embedding of `" ".join(map(lambda c: MORSE_CODE_DICT.get(c, ""), word))`
(functions.py line 243): the per-word Morse code; a character with no
mapping contributes an empty codeword slot. -/
def encodeWordL (w : List Char) : List Char :=
  joinSep [' '] (w.map dictGet)

/-- The Morse document computed by `translate_to_morse_code`
(functions.py lines 220-245): normalize, split into words, encode each
word, join the words with `" / "`, and strip the result. -/
def mcodeL (l : List Char) : List Char :=
  pyStripL (joinSep [' ', '/', ' '] ((splitWs (normalizeL l)).map encodeWordL))

/-- String-level wrapper of `mcodeL`. -/
def mcodeOf (s : String) : String := ⟨mcodeL s.data⟩

/-- Embedding of `"".join(...)` over `word.split()` (switched-dict lookups)
(functions.py line 320): decode one word of the Morse input. -/
def decodeWordL (w : List Char) : List Char :=
  (splitWs w).flatMap switchedGet

/-- The plain text computed by `translate_to_plain_text` (functions.py
lines 307-321): reduce whitespace runs, split on `" / "`, decode each
word, join the words with a single space, and strip the result. -/
def plainL (l : List Char) : List Char :=
  pyStripL (joinSep [' '] ((splitSlash (reduceSpaces l)).map decodeWordL))

/-- String-level wrapper of `plainL`. -/
def plainTextOf (s : String) : String := ⟨plainL s.data⟩

/-- Decimal digit character, as produced by Python string formatting of
an `int` (only values below 10 arise). -/
def digitChar : Nat → Char
  | 0 => '0' | 1 => '1' | 2 => '2' | 3 => '3' | 4 => '4'
  | 5 => '5' | 6 => '6' | 7 => '7' | 8 => '8' | _ => '9'

/-- Fuel-driven core of `natDigits`; the fuel always suffices (see
`digitsVal_natDigitsAux`). -/
def natDigitsAux : Nat → Nat → List Char
  | _, 0 => []
  | n, fuel + 1 =>
    if n < 10 then [digitChar n]
    else natDigitsAux (n / 10) fuel ++ [digitChar (n % 10)]

/-- Decimal representation of a natural number, most significant digit
first: the embedding of the `{counter}` interpolation in the f-string of
`create_audio_file` (functions.py line 162). -/
def natDigits (n : Nat) : List Char := natDigitsAux n (n + 1)

/-- Constant `DEFAULT_AUDIO_OUTPUT_DIR` (globals.py line 36). -/
def DEFAULT_AUDIO_OUTPUT_DIR : String := "output"

/-- Constant `DEFAULT_AUDIO_OUTPUT_FILE` (globals.py line 37). -/
def DEFAULT_AUDIO_OUTPUT_FILE : String := "morse_code_audio.wav"

/-- The initial `audio_filepath` of `create_audio_file` (functions.py
line 152). -/
def audioBasePath : String :=
  DEFAULT_AUDIO_OUTPUT_DIR ++ "/" ++ DEFAULT_AUDIO_OUTPUT_FILE

/-- The root part returned by `os.path.splitext` on `audioBasePath`
(functions.py line 153): everything before the final extension dot. -/
def audioFileRoot : String := "output/morse_code_audio"

/-- The extension part returned by `os.path.splitext` on `audioBasePath`
(functions.py line 153). -/
def audioFileExt : String := ".wav"

/-- The candidate output path tried at loop iteration `counter` of
`create_audio_file` (functions.py lines 151-162): the base path for
`counter = 0`, and the root with suffix `_counter` before the extension
afterwards. -/
def candidatePath : Nat → String
  | 0 => audioBasePath
  | Nat.succ n => audioFileRoot ++ "_" ++ String.mk (natDigits (n + 1)) ++ audioFileExt

/-- The `while os.path.exists(audio_filepath)` loop of
`create_audio_file` (functions.py lines 160-162), over a filesystem
modelled as the list of existing paths; the fuel argument bounds the
number of iterations (enough fuel is always supplied, see
`nextFreePath`). -/
def nextFreeGo (existing : List String) : Nat → Nat → String
  | 0, n => candidatePath n
  | fuel + 1, n =>
    if candidatePath n ∈ existing then nextFreeGo existing fuel (n + 1)
    else candidatePath n

/-- The output path chosen by `create_audio_file`: the first candidate,
starting from the base path, that does not already exist. -/
def nextFreePath (existing : List String) : String :=
  nextFreeGo existing (existing.length + 1) 0

/-- Constant `AUDIO_READY_MESSAGE` (globals.py line 168). -/
def AUDIO_READY_MESSAGE : String := "READY:"

/-- The widget and process-wide state the embedded functions read and
write: the `most_recent_audio_filepath` global (functions.py line 16)
and the texts of the three entry widgets of `morsecode/UI.py`. -/
structure AppState where
  slot : String
  audioStatus : String
  morseEntry : String
  plainEntry : String
deriving DecidableEq

/-- The state at process start: empty slot, all entries blank. -/
def initialState : AppState :=
  { slot := "", audioStatus := "", morseEntry := "", plainEntry := "" }

/-- User-visible effects (message boxes, renders, playback attempts)
emitted by the embedded functions, in order. -/
inductive Event where
  | warnNothingToTranslate
  | warnFormatInvalid
  | warnMeaningless
  | errorPermission
  | confirmCleanup (accepted : Bool)
  | renderedAudio (path : String) (text : String)
  | playbackAttempt (path : String)
  | warnNothingToPlay
deriving DecidableEq

/-- The environment `create_audio_file` interacts with: the user's
answer to the cleanup confirmation dialog, the set of paths that exist
on disk, and whether `pycw.output_wave` raises `PermissionError`. -/
structure AudioEnv where
  userConfirms : Bool
  existing : List String
  writeFails : Bool

/-- Whether `re.search(PATT_SANITIZE_PLAIN_TEXT_INPUT, s)` finds a match
(functions.py line 136). -/
def containsBlacklisted (s : String) : Bool :=
  s.data.any isBlacklistChar

/-- Embedding of `re.sub(PATT_SANITIZE_PLAIN_TEXT_INPUT, "", s)` (functions.py lines
142 and 227): remove every blacklisted character. -/
def stripBlacklisted (s : String) : String :=
  ⟨s.data.filter (fun c => !isBlacklistChar c)⟩

/-- The render phase of `create_audio_file` (functions.py lines
149-180): pick the first free path, then either fail with
`PermissionError` (state untouched) or record the new file in the slot
and the audio-status entry. `text` is the (possibly cleaned) text handed
to `pycw.output_wave`. -/
def renderPhase (env : AudioEnv) (text : String) (st : AppState)
    (evs : List Event) : AppState × List Event :=
  let path := nextFreePath env.existing
  if env.writeFails then (st, evs ++ [Event.errorPermission])
  else ({ st with slot := path,
                  audioStatus := AUDIO_READY_MESSAGE ++ " " ++ path },
        evs ++ [Event.renderedAudio path text])

/-- Embedding of `create_audio_file(normalized_text, audio_status)` (functions.py
lines 110-180), as a state transformer over `AppState`: on a blacklist
hit the user is asked whether to clean the text; declining clears the
slot and the audio-status entry and skips the render. -/
def create_audio_file (env : AudioEnv) (normalizedText : String)
    (st : AppState) : AppState × List Event :=
  if containsBlacklisted normalizedText then
    if env.userConfirms then
      renderPhase env (stripBlacklisted normalizedText) st
        [Event.confirmCleanup true]
    else
      ({ st with slot := "", audioStatus := "" }, [Event.confirmCleanup false])
  else renderPhase env normalizedText st []

/-- Embedding of `translate_to_morse_code(user_plain_text, audio_request, ...)`
(functions.py lines 183-254), pure core as a state transformer: empty
input warns; input whose blacklist-stripped normalization is empty
clears the slot and status and warns about meaningless input; otherwise
the Morse document is written to the Morse entry and, only when audio
was requested, `create_audio_file` runs on the normalized text. -/
def translate_to_morse_code (env : AudioEnv) (userPlainText : String)
    (audioRequest : Bool) (st : AppState) : AppState × List Event :=
  if userPlainText = "" then (st, [Event.warnNothingToTranslate])
  else
    let normalizedText : String := ⟨normalizeL userPlainText.data⟩
    let sanitizedText := stripBlacklisted normalizedText
    if sanitizedText = "" then
      ({ st with slot := "", audioStatus := "" }, [Event.warnMeaningless])
    else
      let mcode := mcodeOf userPlainText
      let st1 := { st with morseEntry := mcode }
      if audioRequest then create_audio_file env normalizedText st1
      else (st1, [])

/-- Embedding of `translate_to_plain_text(user_morse_code_text, audio_request, ...)`
(functions.py lines 257-338), pure core as a state transformer: empty
input warns; input with a character other than dot, dash, slash or
space is refused with a format warning; otherwise the input is decoded,
and an empty decode clears the slot and status and warns about
meaningless input, while a non-empty decode is written to the plain
entry and, when audio was requested, rendered. -/
def translate_to_plain_text (env : AudioEnv) (userMorseText : String)
    (audioRequest : Bool) (st : AppState) : AppState × List Event :=
  if userMorseText = "" then (st, [Event.warnNothingToTranslate])
  else if !userMorseText.data.all legalMorseChar then
    (st, [Event.warnFormatInvalid])
  else
    let plainText := plainTextOf userMorseText
    if plainText ≠ "" then
      let st1 := { st with plainEntry := plainText }
      if audioRequest then create_audio_file env plainText st1
      else (st1, [])
    else
      ({ st with slot := "", audioStatus := "" }, [Event.warnMeaningless])

/-- Embedding of `clear_all(...)` (functions.py lines 367-392) as wired in
`morsecode/UI.py`: clears the three entry widgets and then the
most-recent-filepath slot. -/
def clear_all (_st : AppState) : AppState := initialState

/-- Embedding of `play_audio_file(audio_status)` (functions.py lines 19-47): when the
audio-status text is non-empty, playback of the slot's file is
attempted (success and failure both leave the state untouched);
otherwise a nothing-to-play warning is shown. -/
def play_audio_file (st : AppState) : AppState × List Event :=
  if st.audioStatus ≠ "" then (st, [Event.playbackAttempt st.slot])
  else (st, [Event.warnNothingToPlay])

/-- The user-triggered operations of the application, with the
environment each interacts with. -/
inductive Op where
  | toMorse (env : AudioEnv) (text : String) (audioReq : Bool)
  | toPlain (env : AudioEnv) (text : String) (audioReq : Bool)
  | clearAll
  | play

/-- One user action as a state transition. -/
def step (op : Op) (st : AppState) : AppState :=
  match op with
  | Op.toMorse env text req => (translate_to_morse_code env text req st).1
  | Op.toPlain env text req => (translate_to_plain_text env text req st).1
  | Op.clearAll => clear_all st
  | Op.play => (play_audio_file st).1

/-! ## Spec-side renditions of the codec pipelines

These follow the wording of the specification, with combinators chosen
independently of the source embedding, to be compared with the
source-side definitions. -/

/-- Spec-side join: the pieces with the separator interspersed. -/
def specJoin (sep : List Char) (ws : List (List Char)) : List Char :=
  (ws.intersperse sep).flatten

/-- Spec-side symbol-table lookup, as an optional value. -/
def tableLookup (c : Char) : Option String :=
  (MORSE_CODE_DICT.find? (fun p => p.1 = c)).map Prod.snd

/-- Spec-side inverse-table lookup (later duplicate codewords would
shadow earlier ones), as an optional value. -/
def inverseLookup (code : List Char) : Option Char :=
  (MORSE_CODE_DICT.reverse.find? (fun p => p.2.data = code)).map Prod.fst

/-- Spec-side per-word encoding: each character's code (an unmapped
character contributes an empty codeword slot), joined by single
spaces. -/
def specEncodeWord (w : List Char) : List Char :=
  specJoin [' '] (w.map (fun c => ((tableLookup c).getD "").data))

/-- Spec-side encode pipeline, following the claim's wording:
transliterate to ASCII, uppercase, strip, split into words on
whitespace runs, encode each word, join words with the literal
separator, and trim. -/
def specEncode (s : String) : String :=
  ⟨pyStripL (specJoin [' ', '/', ' ']
    ((splitWs (normalizeL s.data)).map specEncodeWord))⟩

/-- Spec-side per-word decoding: split the word on spaces into
codewords, map each through the inverse table silently dropping
unmapped codewords, and concatenate with no separator. -/
def specDecodeWord (w : List Char) : List Char :=
  (splitWs w).filterMap inverseLookup

/-- Spec-side decode pipeline, following the claim's wording: collapse
whitespace runs, split on the exact word separator, decode each word,
join decoded words with a single space, and trim. -/
def specDecode (s : String) : String :=
  ⟨pyStripL (specJoin [' '] ((splitSlash (reduceSpaces s.data)).map specDecodeWord))⟩

/-! ## Correspondence lemmas -/

theorem joinSep_eq_specJoin (sep : List Char) (ws : List (List Char)) :
    joinSep sep ws = specJoin sep ws := by
  induction ws with
  | nil => rfl
  | cons w ws ih =>
    cases ws with
    | nil => simp [joinSep, specJoin, List.intersperse]
    | cons w' ws' =>
      simp only [joinSep, specJoin, List.intersperse] at *
      simp [ih, List.append_assoc]

theorem dictGet_eq_tableLookup (c : Char) :
    dictGet c = ((tableLookup c).getD "").data := by
  unfold dictGet tableLookup
  cases MORSE_CODE_DICT.find? (fun p => p.1 = c) <;> rfl

theorem switchedGet_eq_inverseLookup (code : List Char) :
    switchedGet code = (inverseLookup code).toList := by
  unfold switchedGet inverseLookup
  cases MORSE_CODE_DICT.reverse.find? (fun p => p.2.data = code) <;> rfl

theorem decodeWordL_eq_specDecodeWord (w : List Char) :
    decodeWordL w = specDecodeWord w := by
  unfold decodeWordL specDecodeWord
  induction splitWs w with
  | nil => rfl
  | cons cw cws ih =>
    simp only [List.flatMap_cons, List.filterMap_cons]
    rw [switchedGet_eq_inverseLookup]
    cases inverseLookup cw <;> simp [ih]

theorem mcodeOf_eq_specEncode (s : String) : mcodeOf s = specEncode s := by
  unfold mcodeOf specEncode mcodeL
  congr 2
  rw [joinSep_eq_specJoin]
  congr 1
  apply List.map_congr_left
  intro w _
  unfold encodeWordL specEncodeWord
  rw [joinSep_eq_specJoin]
  congr 1
  exact List.map_congr_left (fun c _ => dictGet_eq_tableLookup c)

theorem plainTextOf_eq_specDecode (s : String) :
    plainTextOf s = specDecode s := by
  unfold plainTextOf specDecode plainL
  congr 2
  rw [joinSep_eq_specJoin]
  congr 1
  exact List.map_congr_left (fun w _ => decodeWordL_eq_specDecodeWord w)

/-! ## Claims -/

/-- C1: every character of the 54-entry symbol table round-trips
through encoding and decoding: the table has no duplicate codewords, so
the inverse table maps each codeword back to its character, and the
full decode pipeline applied to a single character's code returns that
character. -/
theorem c1_single_char_roundtrip :
    MORSE_CODE_DICT.length = 54 ∧
    (MORSE_CODE_DICT.map Prod.snd).Nodup ∧
    (MORSE_CODE_DICT.all (fun p => switchedGet p.2.data == [p.1])) = true ∧
    (MORSE_CODE_DICT.all
      (fun p => plainTextOf ⟨dictGet p.1⟩ == ⟨[p.1]⟩)) = true := by
  refine ⟨by decide, by decide, by decide, by decide⟩

/-- C2: the encoder normalizes (transliterate, uppercase, strip),
splits into words, encodes characters through the table joining codes
with single spaces and words with " / " (the spec-side pipeline), and
on the given examples produces the expected Morse documents, which are
also what the translation operation writes into the Morse entry. -/
theorem c2_encode_pipeline :
    (∀ s : String, mcodeOf s = specEncode s) ∧
    mcodeOf "2 SeAs" = "..--- / ... . .- ..." ∧
    mcodeOf "żółć" = "--.. --- .-.. -.-." ∧
    (translate_to_morse_code ⟨true, [], false⟩ "2 SeAs" false
      initialState).1.morseEntry = "..--- / ... . .- ..." ∧
    (translate_to_morse_code ⟨true, [], false⟩ "żółć" false
      initialState).1.morseEntry = "--.. --- .-.. -.-." :=
  ⟨mcodeOf_eq_specEncode, by decide, by decide, by decide, by decide⟩

/-- C3: the decoder collapses whitespace runs, splits on the exact
token " / ", splits words on spaces into codewords, decodes through the
inverse table dropping unmapped codewords, joins characters with no
separator and words with single spaces, and trims (the spec-side
pipeline); on the given example it produces "2 SEAS", which the
translation operation writes into the plain-text entry. -/
theorem c3_decode_pipeline :
    (∀ s : String, plainTextOf s = specDecode s) ∧
    plainTextOf "..--- / ... . .- ..." = "2 SEAS" ∧
    (translate_to_plain_text ⟨true, [], false⟩ "..--- / ... . .- ..." false
      initialState).1.plainEntry = "2 SEAS" :=
  ⟨plainTextOf_eq_specDecode, by decide, by decide⟩

/-! ## Event-shape lemmas -/

theorem formatInvalid_not_in_create (env : AudioEnv) (t : String)
    (st : AppState) :
    Event.warnFormatInvalid ∉ (create_audio_file env t st).2 := by
  unfold create_audio_file renderPhase
  split_ifs <;> simp

theorem meaningless_not_in_create (env : AudioEnv) (t : String)
    (st : AppState) :
    Event.warnMeaningless ∉ (create_audio_file env t st).2 := by
  unfold create_audio_file renderPhase
  split_ifs <;> simp

theorem formatInvalid_requires_illegal (env : AudioEnv) (s : String)
    (req : Bool) (st : AppState)
    (hleg : s.data.all legalMorseChar = true) :
    Event.warnFormatInvalid ∉ (translate_to_plain_text env s req st).2 := by
  unfold translate_to_plain_text
  by_cases h1 : s = ""
  · simp [h1]
  · by_cases hp : plainTextOf s = ""
    · simp [h1, hleg, hp]
    · by_cases hr : req = true
      · simp [h1, hleg, hp, hr, formatInvalid_not_in_create]
      · simp [h1, hleg, hp, hr]

/-- C4: on a non-empty Morse input, decoding is refused (a lone
format-invalid warning, state untouched) exactly when the input
contains a character other than dot, dash, slash or space; in
particular the input "#$gaw" is refused. -/
theorem c4_format_invalid (env : AudioEnv) (s : String) (req : Bool)
    (st : AppState) (hne : s ≠ "") :
    (s.data.all legalMorseChar = false ↔
      translate_to_plain_text env s req st = (st, [Event.warnFormatInvalid])) ∧
    translate_to_plain_text ⟨true, [], false⟩ "#$gaw" false initialState =
      (initialState, [Event.warnFormatInvalid]) := by
  constructor
  · constructor
    · intro h
      unfold translate_to_plain_text
      rw [if_neg hne]
      simp [h]
    · intro h
      by_contra hfalse
      have hleg : s.data.all legalMorseChar = true := by
        cases hba : s.data.all legalMorseChar
        · exact absurd hba hfalse
        · rfl
      have hmem : Event.warnFormatInvalid ∈
          (translate_to_plain_text env s req st).2 := by
        rw [h]; simp
      exact formatInvalid_requires_illegal env s req st hleg hmem
  · decide

/-- C4 witness: the theorem applied at a concrete refused input. -/
theorem c4_format_invalid_witness :
    ("#$gaw" : String) ≠ "" ∧
    (("#$gaw" : String).data.all legalMorseChar = false ↔
      translate_to_plain_text ⟨true, [], false⟩ "#$gaw" false initialState =
        (initialState, [Event.warnFormatInvalid])) :=
  ⟨by decide,
   (c4_format_invalid ⟨true, [], false⟩ "#$gaw" false initialState (by decide)).1⟩

/-- C5 counterexample: the input "[" (legal for encoding, unmapped, not
audio-blacklisted) yields an empty trimmed Morse document, yet the
encoder shows no meaningless-input warning and does not clear the
non-empty most-recent-file slot or the audio-status entry — it merely
writes the empty document to the Morse entry. -/
theorem c5_counterexample :
    mcodeOf "[" = "" ∧
    translate_to_morse_code ⟨true, [], false⟩ "[" false
      ⟨"output/a.wav", "READY: output/a.wav", "x", "x"⟩ =
      (⟨"output/a.wav", "READY: output/a.wav", "", "x"⟩, []) ∧
    ("output/a.wav" : String) ≠ "" := by
  refine ⟨by decide, by decide, by decide⟩

/-- C5 (amended): the meaningless-input condition (warning, slot and
audio-status cleared) is triggered in the decode direction exactly when
the trimmed decode output is empty, but in the encode direction exactly
when the blacklist-stripped normalized text is empty — not when the
trimmed Morse document is empty; a non-empty decode output is displayed.
The eleven-dash decode input triggers it. -/
theorem c5_meaningless_condition (env : AudioEnv) (s m : String)
    (req : Bool) (st : AppState)
    (hs : s ≠ "") (hm : m ≠ "") (hleg : m.data.all legalMorseChar = true) :
    ((Event.warnMeaningless ∈ (translate_to_morse_code env s req st).2 ↔
        stripBlacklisted ⟨normalizeL s.data⟩ = "") ∧
     (stripBlacklisted ⟨normalizeL s.data⟩ = "" →
        translate_to_morse_code env s req st =
          ({ st with slot := "", audioStatus := "" },
           [Event.warnMeaningless]))) ∧
    ((Event.warnMeaningless ∈ (translate_to_plain_text env m req st).2 ↔
        plainTextOf m = "") ∧
     (plainTextOf m = "" →
        translate_to_plain_text env m req st =
          ({ st with slot := "", audioStatus := "" },
           [Event.warnMeaningless])) ∧
     (plainTextOf m ≠ "" →
        (translate_to_plain_text env m req st).1.plainEntry = plainTextOf m)) ∧
    translate_to_plain_text ⟨true, [], false⟩ "-----------" false
      ⟨"output/a.wav", "READY: output/a.wav", "x", "x"⟩ =
      (⟨"", "", "x", "x"⟩, [Event.warnMeaningless]) := by
  refine ⟨⟨?_, ?_⟩, ⟨?_, ?_, ?_⟩, by decide⟩
  · by_cases hsan : stripBlacklisted ⟨normalizeL s.data⟩ = ""
    · unfold translate_to_morse_code
      simp [hs, hsan]
    · unfold translate_to_morse_code
      by_cases hr : req = true
      · simp [hs, hsan, hr, meaningless_not_in_create]
      · simp [hs, hsan, hr]
  · intro hsan
    unfold translate_to_morse_code
    simp [hs, hsan]
  · by_cases hp : plainTextOf m = ""
    · unfold translate_to_plain_text
      simp [hm, hleg, hp]
    · unfold translate_to_plain_text
      by_cases hr : req = true
      · simp [hm, hleg, hp, hr, meaningless_not_in_create]
      · simp [hm, hleg, hp, hr]
  · intro hp
    unfold translate_to_plain_text
    simp [hm, hleg, hp]
  · intro hp
    unfold translate_to_plain_text
    by_cases hr : req = true
    · simp [hm, hleg, hp, hr]
      unfold create_audio_file renderPhase
      split_ifs <;> rfl
    · simp [hm, hleg, hp, hr]

/-- C5 witness: the amended theorem applied at the encode input "@"
(blacklist-stripped normalization empty) and the decode input of eleven
dashes (empty trimmed decode output). -/
theorem c5_meaningless_condition_witness :
    (("@" : String) ≠ "" ∧ ("-----------" : String) ≠ "" ∧
      ("-----------" : String).data.all legalMorseChar = true) ∧
    (Event.warnMeaningless ∈
      (translate_to_morse_code ⟨true, [], false⟩ "@" false initialState).2 ↔
        stripBlacklisted ⟨normalizeL ("@" : String).data⟩ = "") :=
  ⟨⟨by decide, by decide, by decide⟩,
   (c5_meaningless_condition ⟨true, [], false⟩ "@" "-----------" false
      initialState (by decide) (by decide) (by decide)).1.1⟩

/-- C7 counterexample: a translation call without an audio request does
not clear the most-recent-file slot or the audio-status display — both
keep their previous non-empty values. -/
theorem c7_counterexample :
    translate_to_morse_code ⟨true, [], false⟩ "A" false
      ⟨"output/a.wav", "READY: output/a.wav", "x", "x"⟩ =
      (⟨"output/a.wav", "READY: output/a.wav", ".-", "x"⟩, []) ∧
    ("output/a.wav" : String) ≠ "" := by
  refine ⟨by decide, by decide⟩

/-- C7 (amended): when audio is not requested no render is attempted
(every emitted effect is a plain warning, never a confirmation,
render or permission error), and the most-recent-file slot and
audio-status display are left unchanged — except that the
meaningless-input path still clears them both. -/
theorem c7_no_audio_no_render (env : AudioEnv) (s : String) (st : AppState) :
    ((∀ e ∈ (translate_to_morse_code env s false st).2,
        e = Event.warnNothingToTranslate ∨ e = Event.warnMeaningless) ∧
     (((translate_to_morse_code env s false st).1.slot = st.slot ∧
       (translate_to_morse_code env s false st).1.audioStatus = st.audioStatus) ∨
      ((translate_to_morse_code env s false st).1.slot = "" ∧
       (translate_to_morse_code env s false st).1.audioStatus = "" ∧
       Event.warnMeaningless ∈ (translate_to_morse_code env s false st).2))) ∧
    ((∀ e ∈ (translate_to_plain_text env s false st).2,
        e = Event.warnNothingToTranslate ∨ e = Event.warnFormatInvalid ∨
          e = Event.warnMeaningless) ∧
     (((translate_to_plain_text env s false st).1.slot = st.slot ∧
       (translate_to_plain_text env s false st).1.audioStatus = st.audioStatus) ∨
      ((translate_to_plain_text env s false st).1.slot = "" ∧
       (translate_to_plain_text env s false st).1.audioStatus = "" ∧
       Event.warnMeaningless ∈ (translate_to_plain_text env s false st).2))) := by
  constructor
  · unfold translate_to_morse_code
    by_cases h1 : s = ""
    · simp [h1]
    · by_cases hsan : stripBlacklisted ⟨normalizeL s.data⟩ = "" <;>
        simp [h1, hsan]
  · unfold translate_to_plain_text
    by_cases h1 : s = ""
    · simp [h1]
    · by_cases hleg : s.data.all legalMorseChar = true
      · by_cases hp : plainTextOf s = "" <;> simp [h1, hleg, hp]
      · simp only [Bool.not_eq_true] at hleg
        simp [h1, hleg]

/-- C8: when the render fails with a permission error (and the cleanup
confirmation, if shown, was accepted so that the render is reached),
the error is reported and the whole state — in particular the
most-recent-file slot — is left exactly as it was. -/
theorem c8_write_failure_slot_untouched (env : AudioEnv) (t : String)
    (st : AppState) (hfail : env.writeFails = true)
    (hconf : containsBlacklisted t = true → env.userConfirms = true) :
    (create_audio_file env t st).1 = st ∧
    Event.errorPermission ∈ (create_audio_file env t st).2 := by
  unfold create_audio_file renderPhase
  by_cases hb : containsBlacklisted t = true
  · simp [hb, hconf hb, hfail]
  · simp [hb, hfail]

/-- C8 witness: the theorem applied at a concrete failing environment. -/
theorem c8_write_failure_slot_untouched_witness :
    ((⟨true, [], true⟩ : AudioEnv).writeFails = true ∧
      (containsBlacklisted "A" = true →
        (⟨true, [], true⟩ : AudioEnv).userConfirms = true)) ∧
    (create_audio_file ⟨true, [], true⟩ "A" initialState).1 = initialState :=
  ⟨⟨by decide, fun _ => by decide⟩,
   (c8_write_failure_slot_untouched ⟨true, [], true⟩ "A" initialState
      (by decide) (fun _ => by decide)).1⟩

/-! ## Character-set closure of the encoder -/

theorem dictGet_legal (c : Char) : (dictGet c).all legalMorseChar = true := by
  unfold dictGet
  cases hf : MORSE_CODE_DICT.find? (fun p => p.1 = c) with
  | none => rfl
  | some p =>
    have hmem : p ∈ MORSE_CODE_DICT := List.mem_of_find?_eq_some hf
    have hall : MORSE_CODE_DICT.all
        (fun q => q.2.data.all legalMorseChar) = true := by decide
    exact List.all_eq_true.mp hall p hmem

theorem joinSep_all (p : Char → Bool) (sep : List Char)
    (ws : List (List Char)) (hsep : sep.all p = true)
    (hws : ∀ w ∈ ws, w.all p = true) :
    (joinSep sep ws).all p = true := by
  induction ws with
  | nil => rfl
  | cons w ws ih =>
    cases ws with
    | nil => exact hws w (by simp)
    | cons w' ws' =>
      simp only [joinSep, List.all_append, Bool.and_eq_true]
      exact ⟨⟨hws w (by simp), hsep⟩,
        ih (fun u hu => hws u (List.mem_cons_of_mem w hu))⟩

theorem pyStripL_all (p : Char → Bool) (l : List Char)
    (h : l.all p = true) : (pyStripL l).all p = true := by
  rw [List.all_eq_true] at h ⊢
  intro x hx
  apply h
  unfold pyStripL at hx
  rw [List.mem_reverse] at hx
  have hx2 := (List.dropWhile_sublist isPyWs).subset hx
  rw [List.mem_reverse] at hx2
  exact (List.dropWhile_sublist isPyWs).subset hx2

theorem mcodeL_legal (l : List Char) :
    (mcodeL l).all legalMorseChar = true := by
  unfold mcodeL
  apply pyStripL_all
  apply joinSep_all
  · decide
  · intro w hw
    obtain ⟨w0, _, rfl⟩ := List.mem_map.mp hw
    unfold encodeWordL
    apply joinSep_all
    · decide
    · intro cw hcw
      obtain ⟨c, _, rfl⟩ := List.mem_map.mp hcw
      exact dictGet_legal c

/-- C9: every Morse document the encoder produces consists only of
dots, dashes, slashes and spaces, so feeding an encoder output back to
the decoder is never refused as format-invalid. -/
theorem c9_encode_output_decodable :
    (∀ s : String, (mcodeOf s).data.all legalMorseChar = true) ∧
    (∀ (env : AudioEnv) (req : Bool) (st : AppState) (s : String),
      Event.warnFormatInvalid ∉
        (translate_to_plain_text env (mcodeOf s) req st).2) :=
  ⟨fun s => mcodeL_legal s.data,
   fun env req st s =>
     formatInvalid_requires_illegal env (mcodeOf s) req st (mcodeL_legal s.data)⟩

/-! ## The slot/status invariant -/

/-- The coupling between the most-recent-file slot and the audio-status
display: either both are empty, or the slot holds a path and the status
announces exactly that path. -/
def SlotStatusInv (st : AppState) : Prop :=
  (st.slot = "" ∧ st.audioStatus = "") ∨
  (st.slot ≠ "" ∧ st.audioStatus = AUDIO_READY_MESSAGE ++ " " ++ st.slot)

theorem nextFreeGo_eq_candidate (existing : List String) :
    ∀ fuel n, ∃ m, nextFreeGo existing fuel n = candidatePath m := by
  intro fuel
  induction fuel with
  | zero => exact fun n => ⟨n, rfl⟩
  | succ f ih =>
    intro n
    unfold nextFreeGo
    by_cases h : candidatePath n ∈ existing
    · rw [if_pos h]; exact ih (n + 1)
    · rw [if_neg h]; exact ⟨n, rfl⟩

theorem natDigits_ne_nil (n : Nat) : natDigits n ≠ [] := by
  unfold natDigits natDigitsAux
  by_cases h : n < 10 <;> simp [h]

theorem candidatePath_ne_empty (m : Nat) : candidatePath m ≠ "" := by
  cases m with
  | zero => decide
  | succ k =>
    intro h
    have hd0 := congrArg String.data h
    simp only [candidatePath, String.data_append, List.append_assoc,
      List.append_eq_nil] at hd0
    exact natDigits_ne_nil (k + 1) hd0.2.2.1

theorem nextFreePath_ne_empty (existing : List String) :
    nextFreePath existing ≠ "" := by
  obtain ⟨m, hm⟩ := nextFreeGo_eq_candidate existing (existing.length + 1) 0
  rw [nextFreePath, hm]
  exact candidatePath_ne_empty m

theorem create_preserves_inv (env : AudioEnv) (t : String) (st : AppState)
    (h : SlotStatusInv st) :
    SlotStatusInv (create_audio_file env t st).1 := by
  unfold create_audio_file renderPhase
  split_ifs with h1 h2 h3 h4
  · exact h
  · exact Or.inr ⟨nextFreePath_ne_empty env.existing, rfl⟩
  · exact Or.inl ⟨rfl, rfl⟩
  · exact h
  · exact Or.inr ⟨nextFreePath_ne_empty env.existing, rfl⟩

theorem toMorse_preserves_inv (env : AudioEnv) (s : String) (req : Bool)
    (st : AppState) (h : SlotStatusInv st) :
    SlotStatusInv (translate_to_morse_code env s req st).1 := by
  unfold translate_to_morse_code
  by_cases h1 : s = ""
  · simpa [h1] using h
  · by_cases hsan : stripBlacklisted ⟨normalizeL s.data⟩ = ""
    · simp [h1, hsan, SlotStatusInv]
    · by_cases hr : req = true
      · simp only [if_neg h1, if_neg hsan, hr, ite_true]
        exact create_preserves_inv env _ _ (by simpa [SlotStatusInv] using h)
      · simp only [if_neg h1, if_neg hsan, hr]
        simpa [SlotStatusInv] using h

theorem toPlain_preserves_inv (env : AudioEnv) (s : String) (req : Bool)
    (st : AppState) (h : SlotStatusInv st) :
    SlotStatusInv (translate_to_plain_text env s req st).1 := by
  unfold translate_to_plain_text
  by_cases h1 : s = ""
  · simpa [h1] using h
  · by_cases hleg : s.data.all legalMorseChar
    · by_cases hp : plainTextOf s = ""
      · simp [h1, hleg, hp, SlotStatusInv]
      · by_cases hr : req = true
        · simp only [if_neg h1, hleg, Bool.not_true, Bool.false_eq_true,
            if_false, hp, ne_eq, not_false_eq_true, if_true, hr, if_pos]
          exact create_preserves_inv env _ _ (by simpa [SlotStatusInv] using h)
        · simp only [if_neg h1, hleg, Bool.not_true, Bool.false_eq_true,
            if_false, hp, ne_eq, not_false_eq_true, if_true, hr]
          simpa [SlotStatusInv] using h
    · simp only [Bool.not_eq_true] at hleg
      simpa [h1, hleg] using h

/-- C10: from the initial state (empty slot, blank status), every
operation — translation in either direction with any environment
(confirmation accepted or declined, render succeeding or failing),
clear-all and play — preserves the invariant that the audio-status text
is non-empty exactly when the most-recent-file slot holds a path, the
status then reading "READY: " followed by that path. -/
theorem c10_slot_status_invariant :
    SlotStatusInv initialState ∧
    ∀ (op : Op) (st : AppState),
      SlotStatusInv st → SlotStatusInv (step op st) := by
  refine ⟨Or.inl ⟨rfl, rfl⟩, ?_⟩
  intro op st h
  cases op with
  | toMorse env s req => exact toMorse_preserves_inv env s req st h
  | toPlain env s req => exact toPlain_preserves_inv env s req st h
  | clearAll => exact Or.inl ⟨rfl, rfl⟩
  | play =>
    unfold step play_audio_file
    split_ifs <;> exact h

/-- C10 witness: the invariant is preserved along a concrete step. -/
theorem c10_slot_status_invariant_witness :
    SlotStatusInv (step Op.clearAll initialState) :=
  c10_slot_status_invariant.2 Op.clearAll initialState (Or.inl ⟨rfl, rfl⟩)

/-! ## The output-path collision rule -/

/-- Numeric value of a decimal digit character (proof-side). -/
def digitVal (c : Char) : Nat := c.toNat - 48

/-- Base-10 value of a digit string (proof-side). -/
def digitsVal (l : List Char) : Nat :=
  l.foldl (fun a c => a * 10 + digitVal c) 0

theorem digitsVal_append_digit (l : List Char) (c : Char) :
    digitsVal (l ++ [c]) = digitsVal l * 10 + digitVal c := by
  unfold digitsVal
  rw [List.foldl_append]
  rfl

theorem digitVal_digitChar (m : Nat) (h : m < 10) :
    digitVal (digitChar m) = m := by
  interval_cases m <;> rfl

theorem digitsVal_natDigitsAux (fuel : Nat) :
    ∀ n, n < fuel → digitsVal (natDigitsAux n fuel) = n := by
  induction fuel with
  | zero => intro n h; omega
  | succ f ih =>
    intro n h
    unfold natDigitsAux
    by_cases h10 : n < 10
    · rw [if_pos h10]
      show digitsVal [digitChar n] = n
      unfold digitsVal
      simpa using digitVal_digitChar n h10
    · rw [if_neg h10]
      rw [digitsVal_append_digit]
      rw [ih (n / 10) (by omega)]
      rw [digitVal_digitChar (n % 10) (Nat.mod_lt n (by omega))]
      omega

theorem natDigits_inj {a b : Nat} (h : natDigits a = natDigits b) :
    a = b := by
  have ha := digitsVal_natDigitsAux (a + 1) a (by omega)
  have hb := digitsVal_natDigitsAux (b + 1) b (by omega)
  rw [natDigits, natDigits] at h
  rw [h] at ha
  omega

theorem candidatePath_data_succ (k : Nat) :
    (candidatePath (k + 1)).data =
      audioFileRoot.data ++ "_".data ++ natDigits (k + 1) ++
        audioFileExt.data := by
  simp [candidatePath, String.data_append]

theorem candidatePath_zero_ne_succ (k : Nat) :
    candidatePath 0 ≠ candidatePath (k + 1) := by
  intro h
  have hlen := congrArg (fun s : String => s.data.length) h
  simp only [candidatePath_data_succ, List.length_append] at hlen
  have hd : 1 ≤ (natDigits (k + 1)).length :=
    List.length_pos.mpr (natDigits_ne_nil (k + 1))
  have h0 : (candidatePath 0).data.length = 27 := by decide
  have h1 : audioFileRoot.data.length = 23 := by decide
  have h2 : ("_" : String).data.length = 1 := by decide
  have h3 : audioFileExt.data.length = 4 := by decide
  omega

theorem candidatePath_inj {a b : Nat}
    (h : candidatePath a = candidatePath b) : a = b := by
  match a, b with
  | 0, 0 => rfl
  | 0, k + 1 => exact absurd h (candidatePath_zero_ne_succ k)
  | k + 1, 0 => exact absurd h.symm (candidatePath_zero_ne_succ k)
  | k + 1, m + 1 =>
    have hd := congrArg String.data h
    rw [candidatePath_data_succ, candidatePath_data_succ] at hd
    have h1 := List.append_cancel_right hd
    have h2 := List.append_cancel_left h1
    have := natDigits_inj h2
    omega

theorem exists_free_candidate (existing : List String) (n : Nat) :
    ∃ k, k ≤ existing.length ∧ candidatePath (n + k) ∉ existing := by
  by_contra hc
  push_neg at hc
  have hsub : (Finset.range (existing.length + 1)).image
      (fun k => candidatePath (n + k)) ⊆ existing.toFinset := by
    intro x hx
    obtain ⟨k, hk, rfl⟩ := Finset.mem_image.mp hx
    rw [List.mem_toFinset]
    exact hc k (Nat.lt_succ_iff.mp (Finset.mem_range.mp hk))
  have hcard := Finset.card_le_card hsub
  rw [Finset.card_image_of_injective _
    (fun x y hxy => by have := candidatePath_inj hxy; omega)] at hcard
  have hle := existing.toFinset_card_le
  simp only [Finset.card_range] at hcard
  omega

theorem nextFreeGo_first_free (existing : List String) :
    ∀ fuel n, (∃ k, k < fuel ∧ candidatePath (n + k) ∉ existing) →
    ∃ j, nextFreeGo existing fuel n = candidatePath (n + j) ∧
      candidatePath (n + j) ∉ existing ∧
      ∀ i, i < j → candidatePath (n + i) ∈ existing := by
  intro fuel
  induction fuel with
  | zero =>
    rintro n ⟨k, hk, _⟩
    omega
  | succ f ih =>
    rintro n ⟨k, hk, hfree⟩
    unfold nextFreeGo
    by_cases hmem : candidatePath n ∈ existing
    · rw [if_pos hmem]
      have hk0 : k ≠ 0 := by
        rintro rfl
        rw [Nat.add_zero] at hfree
        exact hfree hmem
      obtain ⟨j, hj1, hj2, hj3⟩ := ih (n + 1)
        ⟨k - 1, by omega, by
          have he : n + 1 + (k - 1) = n + k := by omega
          rw [he]; exact hfree⟩
      refine ⟨j + 1, ?_, ?_, ?_⟩
      · rw [hj1]; congr 1; omega
      · have he : n + (j + 1) = n + 1 + j := by omega
        rw [he]; exact hj2
      · intro i hi
        cases i with
        | zero => simpa using hmem
        | succ i' =>
          have he : n + (i' + 1) = n + 1 + i' := by omega
          rw [he]
          exact hj3 i' (by omega)
    · rw [if_neg hmem]
      refine ⟨0, by rw [Nat.add_zero], by rwa [Nat.add_zero], ?_⟩
      intro i hi
      exact absurd hi (Nat.not_lt_zero i)

/-- C6: the render's output path is the first candidate — the base name,
then the base name with suffix _1, _2, … before the extension — at
which no file exists, hence it never coincides with a pre-existing
file; in particular an occupied base yields the _1 name and an occupied
base and _1 yield the _2 name. -/
theorem c6_unique_output_path :
    (∀ existing : List String,
      nextFreePath existing ∉ existing ∧
      ∃ j, nextFreePath existing = candidatePath j ∧
        ∀ i, i < j → candidatePath i ∈ existing) ∧
    nextFreePath [] = "output/morse_code_audio.wav" ∧
    nextFreePath ["output/morse_code_audio.wav"] =
      "output/morse_code_audio_1.wav" ∧
    nextFreePath ["output/morse_code_audio.wav",
      "output/morse_code_audio_1.wav"] = "output/morse_code_audio_2.wav" := by
  refine ⟨?_, by decide, by decide, by decide⟩
  intro existing
  obtain ⟨k, hk, hfree⟩ := exists_free_candidate existing 0
  obtain ⟨j, hj1, hj2, hj3⟩ := nextFreeGo_first_free existing
    (existing.length + 1) 0 ⟨k, by omega, hfree⟩
  rw [Nat.zero_add] at hj1 hj2
  refine ⟨?_, j, ?_, ?_⟩
  · rw [nextFreePath, hj1]; exact hj2
  · rw [nextFreePath, hj1]
  · intro i hi
    have := hj3 i hi
    rwa [Nat.zero_add] at this
